import Mathlib

/-!
Verification of the bambi result-naming layer (`bambi/results.py`) and of the
spec-modelled model-construction layer, against the natural-language
specification.

The Python regexes of `PyMC3Results` are embedded as explicit backtracking
matchers over `List Char`.  Each matcher follows Python `re.match` semantics
for its one fixed pattern: greedy quantifiers with backtracking, leftmost
match anchored at the start, capture groups holding the last text matched,
optional groups that did not participate reported as `none`.  Note that in
Python a `\1` INSIDE a character class is the octal escape for the character
with code 1 (it is not a backreference), so `[^_\1]` excludes `'_'` and
`Char.ofNat 1`; outside a class `\1` is a backreference to group 1.

Python exceptions (KeyError on a missing term, TypeError from subscripting
`None`, IndexError on levels, StopIteration from `next`, pandas KeyError from
`drop`) are embedded as `none` results of `Option`-valued functions.
-/

namespace Bambi

/-! ## Generic list/string utilities -/

/-- Split a list at EVERY occurrence of the separator (Python `str.split`). -/
def splitAll (sep : Char) : List Char → List (List Char)
  | [] => [[]]
  | c :: rest =>
    if c = sep then
      [] :: splitAll sep rest
    else
      match splitAll sep rest with
      | [] => [[c]]
      | h :: t => (c :: h) :: t

/-- Split at the FIRST occurrence of the separator; `none` if it is absent. -/
def splitFirst (sep : Char) : List Char → Option (List Char × List Char)
  | [] => none
  | c :: rest =>
    if c = sep then some ([], rest)
    else (splitFirst sep rest).map (fun p => (c :: p.1, p.2))

/-- Substring test (Python `pat in s`). -/
def hasSubstr (pat : List Char) : List Char → Bool
  | [] => pat.isEmpty
  | c :: rest => pat.isPrefixOf (c :: rest) || hasSubstr pat rest

/-- Value of a nonempty decimal digit string (Python `int`). -/
def digitsToNat (l : List Char) : Nat :=
  l.foldl (fun n c => n * 10 + (c.toNat - 48)) 0

/-- Does the list end with the three characters `_sd`? -/
def endsWithSd (l : List Char) : Bool :=
  ['_', 's', 'd'].isSuffixOf l

/-! ## The regex of `_prettify_name`, first stage

`re1 = re.match(r'^([bu]_)(.+[^__\d+]+)(__\d+)?$', old_name)`.

The character class `[^__\d+]` excludes `'_'`, decimal digits and `'+'`.
Group 1 is `b_` or `u_` (kept as the single `Char` `'b'`/`'u'`), group 2 is
`.+` followed by one or more class characters, group 3 the optional trailing
`__<digits>`. -/

def isRe1ClassChar (c : Char) : Bool :=
  !(c = '_' || c.isDigit || c = '+')

/-- Match `(__\d+)?$` against the remainder.  Greedy: the group participates
whenever it can.  Returns the captured group 3 on success. -/
def re1Tail3 : List Char → Option (Option (List Char))
  | [] => some none
  | '_' :: '_' :: d :: ds =>
    if (d :: ds).all (·.isDigit) then some (some ('_' :: '_' :: d :: ds)) else none
  | _ => none

/-- Match `[^__\d+]+(__\d+)?$` with a greedy class run (longest run first,
backtracking to shorter runs).  Returns the run length and group 3. -/
def re1ClassRun : List Char → Option (Nat × Option (List Char))
  | [] => none
  | c :: rest =>
    if isRe1ClassChar c then
      match re1ClassRun rest with
      | some (b, g3) => some (b + 1, g3)
      | none => (re1Tail3 rest).map (fun g3 => (1, g3))
    else none

/-- Match `.+[^__\d+]+(__\d+)?$`: the `.+` is greedy (longest first), then
the class run.  Returns `(length of .+, class-run length, group 3)`. -/
def re1Body : List Char → Option (Nat × Nat × Option (List Char))
  | [] => none
  | _ :: rest =>
    match re1Body rest with
    | some (a, b, g3) => some (a + 1, b, g3)
    | none => (re1ClassRun rest).map (fun p => (1, p.1, p.2))

/-- `re.match(r'^([bu]_)(.+[^__\d+]+)(__\d+)?$', name)`, returning
`(group1 head char, group2, group3)`. -/
def prettifyRe1 (name : List Char) : Option (Char × List Char × Option (List Char)) :=
  match name with
  | c :: '_' :: t =>
    if c = 'b' || c = 'u' then
      (re1Body t).map (fun p => (c, t.take (p.1 + p.2.1), p.2.2))
    else none
  | _ => none

/-! ## The random-slope regex of `_prettify_name`

`re2 = re.match(r'^([^\|]+)\|([^_\1]+)(_\1)?(\[.+\])?$', re1.group(2))`.

Group 1 is the greedy run of non-`'|'` characters (hence exactly the text up
to the first `'|'`, which must exist); group 2 is a greedy run of characters
other than `'_'` and `Char.ofNat 1`; group 3 is an optional `'_'` followed by
a backreference to group 1; group 4 an optional bracketed `[.+]` reaching the
end. -/

def isRe2ClassChar (c : Char) : Bool :=
  !(c = '_' || c = Char.ofNat 1)

/-- Match `(\[.+\])?$` against the remainder (greedy: bracket group first;
`.+` then needs at least one character strictly between the brackets, and
`']'` must be the final character because of the anchor). -/
def re2Group4 (r : List Char) : Option (Option (List Char)) :=
  match r with
  | [] => some none
  | '[' :: d :: rest =>
    if rest ≠ [] && (d :: rest).getLast? = some ']' then
      some (some ('[' :: d :: rest))
    else none
  | _ => none

/-- Match `(_\1)?(\[.+\])?$` with backreference text `g1` (greedy). -/
def re2Tail34 (g1 : List Char) (r : List Char) :
    Option (Option (List Char) × Option (List Char)) :=
  match r with
  | '_' :: r2 =>
    if g1.isPrefixOf r2 then
      match re2Group4 (r2.drop g1.length) with
      | some g4 => some (some ('_' :: g1), g4)
      | none => (re2Group4 r).map (fun g4 => (none, g4))
    else (re2Group4 r).map (fun g4 => (none, g4))
  | _ => (re2Group4 r).map (fun g4 => (none, g4))

/-- Match `[^_\1]+(_\1)?(\[.+\])?$` with a greedy class run. -/
def re2ClassRun (g1 : List Char) : List Char →
    Option (Nat × Option (List Char) × Option (List Char))
  | [] => none
  | c :: rest =>
    if isRe2ClassChar c then
      match re2ClassRun g1 rest with
      | some (b, g3, g4) => some (b + 1, g3, g4)
      | none => (re2Tail34 g1 rest).map (fun p => (1, p.1, p.2))
    else none

/-- `re.match(r'^([^\|]+)\|([^_\1]+)(_\1)?(\[.+\])?$', s)`, returning
`(group1, group2, group3, group4)`. -/
def re2Match (s : List Char) :
    Option (List Char × List Char × Option (List Char) × Option (List Char)) :=
  match splitFirst '|' s with
  | none => none
  | some (g1, rest) =>
    if g1 = [] then none
    else (re2ClassRun g1 rest).map (fun p => (g1, rest.take p.1, p.2.1, p.2.2))

/-! ## The standard-deviation regex of `_prettify_name`

`re3 = re.match(r'^([^\|]+)(\|[^_\1]+)?(_\1)?(\[\d+\])?_sd$', re1.group(2))`.

Here group 1 backtracks over shorter prefixes (it may contain `'_'`), group 2
optionally matches `'|'` plus a class run, group 3 the optional backreference,
group 4 an optional bracketed digit string, and the literal `_sd` must end
the string. -/

/-- Match the final literal `_sd$`. -/
def re3End (r : List Char) : Bool :=
  r = ['_', 's', 'd']

/-- The bracket attempt `\[\d+\]` of group 4, applied to the text after the
opening `'['`: a nonempty greedy digit run, the closing `']'`, then the
final `_sd`. -/
def re3Bracket (rest : List Char) : Option (Option (List Char)) :=
  if rest.takeWhile (·.isDigit) ≠ [] then
    match rest.drop (rest.takeWhile (·.isDigit)).length with
    | ']' :: r2 =>
      if re3End r2 then some (some ('[' :: (rest.takeWhile (·.isDigit) ++ [']'])))
      else none
    | _ => none
  else none

/-- Match `(\[\d+\])?_sd$` (greedy: bracket group first). -/
def re3Group4 (r : List Char) : Option (Option (List Char)) :=
  match r with
  | '[' :: rest =>
    (re3Bracket rest).orElse (fun _ => if re3End ('[' :: rest) then some none else none)
  | _ => if re3End r then some none else none

/-- The backreference attempt `_\1` of group 3. -/
def re3Backref (g1 r : List Char) : Option (Option (List Char) × Option (List Char)) :=
  match r with
  | '_' :: r2 =>
    if g1.isPrefixOf r2 then
      (re3Group4 (r2.drop g1.length)).map (fun g4 => (some ('_' :: g1), g4))
    else none
  | _ => none

/-- Match `(_\1)?(\[\d+\])?_sd$` with backreference text `g1` (greedy). -/
def re3Group3 (g1 : List Char) (r : List Char) :
    Option (Option (List Char) × Option (List Char)) :=
  (re3Backref g1 r).orElse (fun _ => (re3Group4 r).map (fun g4 => (none, g4)))

/-- Match `[^_\1]+(_\1)?(\[\d+\])?_sd$` with a greedy class run; the run is
group 2's body (after its leading `'|'`). -/
def re3Group2Run (g1 : List Char) : List Char →
    Option (Nat × Option (List Char) × Option (List Char))
  | [] => none
  | c :: rest =>
    if isRe2ClassChar c then
      match re3Group2Run g1 rest with
      | some (b, g3, g4) => some (b + 1, g3, g4)
      | none => (re3Group3 g1 rest).map (fun p => (1, p.1, p.2))
    else none

/-- The `\|[^_\1]+` attempt of group 2. -/
def re3Pipe (g1 r : List Char) :
    Option (Option (List Char) × Option (List Char) × Option (List Char)) :=
  match r with
  | '|' :: r2 =>
    (re3Group2Run g1 r2).map (fun p => (some ('|' :: r2.take p.1), p.2.1, p.2.2))
  | _ => none

/-- Match `(\|[^_\1]+)?(_\1)?(\[\d+\])?_sd$` (greedy: group 2 first). -/
def re3Group2 (g1 : List Char) (r : List Char) :
    Option (Option (List Char) × Option (List Char) × Option (List Char)) :=
  (re3Pipe g1 r).orElse (fun _ => (re3Group3 g1 r).map (fun p => (none, p.1, p.2)))

/-- Backtrack over candidate lengths for group 1 (`[^\|]+` is greedy, so the
longest prefix of the leading non-`'|'` run is tried first). -/
def re3TryG1 (s : List Char) :
    Nat → Option (List Char × Option (List Char) × Option (List Char) × Option (List Char))
  | 0 => none
  | n + 1 =>
    match re3Group2 (s.take (n + 1)) (s.drop (n + 1)) with
    | some (g2, g3, g4) => some (s.take (n + 1), g2, g3, g4)
    | none => re3TryG1 s n

/-- `re.match(r'^([^\|]+)(\|[^_\1]+)?(_\1)?(\[\d+\])?_sd$', s)`, returning
`(group1, group2, group3, group4)`. -/
def re3Match (s : List Char) :
    Option (List Char × Option (List Char) × Option (List Char) × Option (List Char)) :=
  re3TryG1 s (s.takeWhile (· ≠ '|')).length

/-! ## The canonicalization regex of `_filter_names`

`regex = re.match(r'^u_([^\|]+)\|([^_\1]+)_\1(.*_sd$)?', name)`.

This is a prefix match (no final `$` outside group 3): after the mandatory
`'_'` plus backreference to group 1, the optional group 3 matches the entire
remainder whenever that remainder ends in `_sd`, and is absent otherwise. -/

/-- Group 3 `(.*_sd$)?`: participates exactly when the remainder ends in
`_sd`, capturing the whole remainder. -/
def filterTail3 (rem : List Char) : Option (List Char) :=
  if endsWithSd rem then some rem else none

/-- Match `[^_\1]+_\1(.*_sd$)?` with a greedy class run and backreference
text `g1`; returns the run length (group 2) and group 3. -/
def filterG2Run (g1 : List Char) : List Char → Option (Nat × Option (List Char))
  | [] => none
  | c :: rest =>
    if isRe2ClassChar c then
      match filterG2Run g1 rest with
      | some (b, g3) => some (b + 1, g3)
      | none =>
        match rest with
        | '_' :: r2 =>
          if g1.isPrefixOf r2 then some (1, filterTail3 (r2.drop g1.length)) else none
        | _ => none
    else none

/-- `re.match(r'^u_([^\|]+)\|([^_\1]+)_\1(.*_sd$)?', name)`, returning
`(group1, group2, group3)`. -/
def filterRe (s : List Char) : Option (List Char × List Char × Option (List Char)) :=
  match s with
  | 'u' :: '_' :: rest =>
    match splitFirst '|' rest with
    | none => none
    | some (g1, r2) =>
      if g1 = [] then none
      else (filterG2Run g1 r2).map (fun p => (g1, r2.take p.1, p.2))
  | _ => none

/-! ## The model state visible to `PyMC3Results` -/

/-- One entry of `model.terms`: the term name together with its ordered
`levels` labels (all that `_prettify_name` reads from a `Term`). -/
structure TermInfo where
  name : List Char
  levels : List (List Char)
deriving DecidableEq

/-- The slice of a bambi `Model` that the results layer consults: the
`terms` mapping (an insertion-ordered dict, here an association list) and
the keys of `random_terms` / `fixed_terms`. -/
structure ModelEmb where
  terms : List TermInfo
  randomTermNames : List (List Char)
  fixedTermNames : List (List Char)
deriving DecidableEq

/-- `model.terms[name]`; `none` embeds Python's `KeyError`. -/
def ModelEmb.lookup (m : ModelEmb) (name : List Char) : Option TermInfo :=
  m.terms.find? (fun t => t.name = name)

/-- `term.levels[i]`; `none` embeds Python's `IndexError`. -/
def TermInfo.level (t : TermInfo) (i : Nat) : Option (List Char) :=
  t.levels.get? i

/-! ## `PyMC3Results._prettify_name` -/

/-- The index parsed from a participating group 3 `__<digits>`:
`int(re1.group(3)[2:])`. -/
def group3Index (g3 : List Char) : Nat :=
  digitsToNat (g3.drop 2)

/-- The random-slope branch of `_prettify_name` (re2 matched).  Looks up
`model.terms['<g1>|<g2>']`; with a bracket group renders
`re2.group(3)[1:] ++ re2.group(4) ++ '|' ++ levels[index]`, otherwise
`re2.group(1) ++ '|' ++ levels[index]`.  Subscripting a `None` group or a
missing level is an exception, i.e. `none`. -/
def slopeBranch (m : ModelEmb) (g3 : Option (List Char))
    (r1 r2 : List Char) (r3 r4 : Option (List Char)) : Option (List Char) :=
  match m.lookup (r1 ++ '|' :: r2) with
  | none => none
  | some term =>
    match r4 with
    | some br =>
      match r3, g3 with
      | some r3v, some g3v =>
        (term.level (group3Index g3v)).map (fun lvl => r3v.drop 1 ++ br ++ '|' :: lvl)
      | _, _ => none
    | none =>
      match g3 with
      | some g3v => (term.level (group3Index g3v)).map (fun lvl => r1 ++ '|' :: lvl)
      | none => none

/-- The standard-deviation branch of `_prettify_name` (re1 group 3 absent
and re3 matched). -/
def sdBranch (s1 : List Char) (s2 s3 s4 : Option (List Char)) : Option (List Char) :=
  match s2 with
  | none => some ('1' :: '|' :: (s1 ++ ['_', 's', 'd']))
  | some s2v =>
    match s4 with
    | some br =>
      match s3 with
      | some s3v => some (s3v.drop 1 ++ br ++ s2v ++ ['_', 's', 'd'])
      | none => none
    | none => some (s1 ++ s2v ++ ['_', 's', 'd'])

/-- The fixed-effect / random-intercept branch of `_prettify_name`. -/
def termBranch (m : ModelEmb) (g1 : Char) (g2 : List Char)
    (g3 : Option (List Char)) : Option (List Char) :=
  match m.lookup g2 with
  | none => none
  | some term =>
    if g1 = 'b' then
      match g3 with
      | none => some g2
      | some g3v => term.level (group3Index g3v)
    else
      match g3 with
      | none => none
      | some g3v =>
        (term.level (group3Index g3v)).map
          (fun lvl => '1' :: '|' :: (g2 ++ '[' :: (lvl ++ [']'])))

/-- `PyMC3Results._prettify_name` on the raw character list.  `none` embeds
any Python exception; `some l` is the returned string. -/
def prettifyCore (m : ModelEmb) (name : List Char) : Option (List Char) :=
  match prettifyRe1 name with
  | none => some name
  | some (g1, g2, g3) =>
    match re2Match g2 with
    | some (r1, r2, r3, r4) => slopeBranch m g3 r1 r2 r3 r4
    | none =>
      match g3, re3Match g2 with
      | none, some (s1, s2, s3, s4) => sdBranch s1 s2 s3 s4
      | _, _ => termBranch m g1 g2 g3

/-- `PyMC3Results._prettify_name` on strings. -/
def prettifyName (m : ModelEmb) (name : String) : Option String :=
  (prettifyCore m name.data).map String.mk

/-! ## `PyMC3Results.__init__` and `_filter_names` -/

/-- An unobserved random variable of the backend model: its name and whether
it is a `pymc3.model.TransformedRV`. -/
structure BackendRV where
  name : String
  isTransformedRV : Bool
deriving DecidableEq

/-- Names of the `TransformedRV`s (the `trans` set of `__init__`). -/
def transNames (rvs : List BackendRV) : List String :=
  (rvs.filter (·.isTransformedRV)).map (·.name)

/-- `self.untransformed_vars`: trace variable names that are either
transformed RVs or RVs whose name contains no transformed RV's name as a
substring (`any([t in x for t in trans])`). -/
def untransformedVars (rvs : List BackendRV) (varnames : List String) : List String :=
  let trans := transNames rvs
  let untrans := ((rvs.map (·.name)).filter (fun n => n ∉ trans)).filter
    (fun x => !(trans.any (fun t => hasSubstr t.data x.data)))
  varnames.filter (fun x => x ∈ trans || x ∈ untrans)

/-- The `_format` helper of `_filter_names`: collapse
`u_<g1>|<g2>_<g1><rest>` (when `<rest>` does not end in `_sd`) to the
canonical `u_<g1>|<g2>`, and leave every other name unchanged. -/
def formatName (x : String) : String :=
  match filterRe x.data with
  | none => x
  | some (g1, g2, g3) =>
    if g3.isSome then x else String.mk ('u' :: '_' :: (g1 ++ '|' :: g2))

/-- `PyMC3Results._filter_names`.  When `hide_transformed` holds the
candidate list is `untransformed_vars`, else all trace variable names; with
`exclude_ranefs` every name whose canonical form minus its first two
characters equals a random-term name is removed. -/
def filterNames (m : ModelEmb) (untransformed varnames : List String)
    (excludeRanefs hideTransformed : Bool) : List String :=
  let names := if hideTransformed then untransformed else varnames
  if excludeRanefs then
    names.filter (fun x => !(m.randomTermNames.contains ((formatName x).data.drop 2)))
  else names

/-! ## `PyMC3Results.summary` and `PyMC3Results.plot`

The external collaborators are abstracted: `pm.df_summary` is an opaque base
table whose column names are a parameter (`baseCols`); the diagnostic
functions `pmd.effective_n` / `pmd.gelman_rubin` contribute exactly the two
merged columns named `effective_n` and `gelman_rubin`.  Response data is
embedded over `ℚ` (the comparisons against the literals 0.99 and 1.01 are
exact on the 0/1 data the branch concerns).  A run returns `none` on a
Python exception, otherwise the resulting column-name list and the emitted
warnings in order. -/

/-- The model/trace state that `summary` and `plot` consult. -/
structure SummarySpec where
  baseCols : List String
  nchains : Nat
  familyName : String
  ydata : List ℚ
  yName : String
  rawY : List String
deriving DecidableEq

/-- The warning of the `nchains <= 1` branch (verbatim from the source). -/
def noDiagMsg : String :=
  "Multiple MCMC chains (i.e., njobs > 1) are required in order to compute convergence diagnostics."

/-- The event-coding reminder; the source formats
`Modeling the probability that <yName>==<value>` (the quotes around the
value are immaterial and omitted here). -/
def eventMsg (yName v : String) : String :=
  "Modeling the probability that " ++ yName ++ "==" ++ v

/-- `np.max` of the response data; `none` embeds the error on empty data. -/
def maxQ : List ℚ → Option ℚ
  | [] => none
  | x :: xs => some (xs.foldl max x)

/-- The binomial event-coding block shared verbatim by `summary` and
`plot`: when the family is binomial and the encoded response's maximum is
below 1.01, find the first row whose encoded value exceeds 0.99 and name the
raw data value there.  `none` embeds an exception (`next` on an empty
generator, or a missing raw value); `some none` means no warning. -/
def binomialWarning (family : String) (ydata : List ℚ) (yName : String)
    (rawY : List String) : Option (Option String) :=
  if family = "binomial" then
    match maxQ ydata with
    | none => none
    | some mx =>
      if mx < mkRat 101 100 then
        match ydata.findIdx? (fun x => mkRat 99 100 < x) with
        | none => none
        | some i =>
          match rawY.get? i with
          | none => none
          | some v => some (some (eventMsg yName v))
      else some none
  else some none

/-- `PyMC3Results.summary`, reduced to the produced column-name list and
warning list.  Steps in source order: append `effective_n` and
`gelman_rubin` when `nchains > 1` (else warn); drop the `mc_error` column
unless requested (`DataFrame.drop` raises when the column is absent); emit
the binomial event-coding reminder. -/
def summaryRun (s : SummarySpec) (mcError : Bool) :
    Option (List String × List String) :=
  let cols := if s.nchains > 1 then s.baseCols ++ ["effective_n", "gelman_rubin"]
              else s.baseCols
  let warns := if s.nchains > 1 then ([] : List String) else [noDiagMsg]
  match (if mcError then some cols
         else if "mc_error" ∈ cols then some (cols.filter (· ≠ "mc_error"))
         else none) with
  | none => none
  | some cols2 =>
    match binomialWarning s.familyName s.ydata s.yName s.rawY with
    | none => none
    | some w => some (cols2, warns ++ w.toList)

/-- The warnings emitted by `PyMC3Results.plot` (the traceplot itself is the
external renderer); only the binomial event-coding block warns. -/
def plotWarnings (s : SummarySpec) : Option (List String) :=
  (binomialWarning s.familyName s.ydata s.yName s.rawY).map (·.toList)

/-! ## Model construction (spec-modelled)

The construction engine `bambi/models.py` is not part of the available
sources (only its tests are), so the definitions below are built from the
spec's description of `Term` / `Model`, sections 4.1, 4.2 and 7. -/

/-- Modelled from the spec: a cell of the tabular data source, numeric or
categorical (`models.py` is absent from the sources). -/
inductive CellVal where
  | num (q : ℚ)
  | cat (s : String)
deriving DecidableEq

/-- Modelled from the spec: the in-memory data table, named columns of equal
length. -/
abbrev DataTable := List (String × List CellVal)

/-- Column lookup by name. -/
def getCol (d : DataTable) (n : String) : Option (List CellVal) :=
  (d.find? (fun p => p.1 = n)).map (·.2)

/-- The model's row count (all columns have equal length by invariant). -/
def rowsOf (d : DataTable) : Nat :=
  match d with
  | [] => 0
  | (_, c) :: _ => c.length

/-- A total order on cell values used to sort the unique level values of a
categorical column (numerics before strings). -/
def cellLe (a b : CellVal) : Bool :=
  match a, b with
  | .num x, .num y => x ≤ y
  | .num _, .cat _ => true
  | .cat _, .num _ => false
  | .cat x, .cat y => x ≤ y

/-- Insertion sort by `cellLe`. -/
def insertCell (a : CellVal) : List CellVal → List CellVal
  | [] => [a]
  | b :: rest => if cellLe a b then a :: b :: rest else b :: insertCell a rest

/-- Sorted unique values of a column, in level order. -/
def sortedLevels (col : List CellVal) : List CellVal :=
  col.dedup.foldr insertCell []

/-- Numeric reading of a cell (categorical cells have no numeric reading;
the spec-level encoding only applies it to continuous columns). -/
def cellNum : CellVal → ℚ
  | .num q => q
  | .cat _ => 0

/-- Is the column categorical (string-valued)?  Column types are uniform by
invariant, so the head cell decides. -/
def isCatCol (col : List CellVal) : Bool :=
  match col.head? with
  | some (.cat _) => true
  | _ => false

/-- Modelled from the spec: one term specification — the nominal effect.  A
`Term` is determined by the referenced variable, the categorical and random
flags, the optional grouping factor, and the drop-first-level policy
(section 4.1).  The variable name `Intercept` denotes the intercept term. -/
structure TermSpec where
  var : String
  categorical : Bool
  random : Bool
  over : Option String
  dropFirst : Bool
deriving DecidableEq

/-- Modelled from the spec, section 4.1: encode one term specification into
its design-matrix columns (each column a list of rationals, one entry per
row).  Continuous terms contribute their column; categorical terms a one-hot
block over the sorted unique levels, optionally dropping the first level;
a random term distributed over a continuous grouping factor contributes the
elementwise products; over a categorical grouping factor it contributes, for
each own level, a block of indicators over the grouping levels present in
that category's rows. -/
def encodeTerm (d : DataTable) (s : TermSpec) : List (List ℚ) :=
  if s.var = "Intercept" then [List.replicate (rowsOf d) 1]
  else
    match getCol d s.var with
    | none => []
    | some col =>
      let ownLevels :=
        if s.dropFirst then (sortedLevels col).drop 1 else sortedLevels col
      match s.over with
      | none =>
        if s.categorical then
          ownLevels.map (fun l => col.map (fun v => if v = l then (1 : ℚ) else 0))
        else [col.map cellNum]
      | some g =>
        match getCol d g with
        | none => []
        | some gcol =>
          if isCatCol gcol then
            ownLevels.flatMap (fun l =>
              let present := sortedLevels ((col.zip gcol).filterMap
                (fun p => if p.1 = l then some p.2 else none))
              present.map (fun u =>
                (col.zip gcol).map (fun p => if p.1 = l ∧ p.2 = u then (1 : ℚ) else 0)))
          else
            let own :=
              if s.categorical then
                ownLevels.map (fun l => col.map (fun v => if v = l then (1 : ℚ) else 0))
              else [col.map cellNum]
            own.map (fun c => c.zipWith (· * ·) (gcol.map cellNum))

/-- Modelled from the spec: the scale statistic a default prior derives from
the term's encoded data ("computed from the term's own data dispersion", a
pure function of the encoded columns). -/
def scaleOf (cols : List (List ℚ)) : ℚ :=
  cols.foldl (fun acc c => acc + c.foldl (fun a x => a + x * x) 0) 0

/-- Modelled from the spec: the default prior hyperparameter tuple of a
term, keyed by structural role — fixed effects get a zero-mean normal whose
scale derives from the encoded data, random effects a half-normal on the
standard deviation (section 4.2). -/
def priorTuple (d : DataTable) (s : TermSpec) : String × ℚ :=
  if s.random then ("HalfNormal_sd", scaleOf (encodeTerm d s))
  else ("Normal_mu0", scaleOf (encodeTerm d s))

/-- Fixed-effect design-matrix columns of a model given as a term-spec
list. -/
def buildFixedCols (d : DataTable) (specs : List TermSpec) : List (List ℚ) :=
  (specs.filter (fun s => !s.random)).flatMap (encodeTerm d)

/-- Random-effect design-matrix columns. -/
def buildRandomCols (d : DataTable) (specs : List TermSpec) : List (List ℚ) :=
  (specs.filter (·.random)).flatMap (encodeTerm d)

/-- Default prior hyperparameter tuples of all terms. -/
def buildPriors (d : DataTable) (specs : List TermSpec) : List (String × ℚ) :=
  specs.map (priorTuple d)

/-- Is a string a plain identifier (letters, digits, underscores)? -/
def isIdent (l : List Char) : Bool :=
  !l.isEmpty && l.all (fun c => c.isAlphanum || c = '_')

/-- Is a data column categorical, as inferred for a bare variable name? -/
def inferCat (d : DataTable) (v : String) : Bool :=
  match getCol d v with
  | some col => isCatCol col
  | none => false

/-- Modelled from the spec, section 4.2: parse one random-effect
specification of the `effect|group` grammar.  The accepted left sides are
`1` (a random intercept over the group), `0+effect` (no extra reference
coding) and a bare `effect`; anything else — in particular an expression
with more than one `|`, or a compound like `1+BP` — fails with a validation
error. -/
def parseRandomTerm (d : DataTable) (s : String) : Except String TermSpec :=
  match splitAll '|' s.data with
  | [lhs, grp] =>
    if !isIdent grp then Except.error "malformed random effect specification"
    else
      match splitAll '+' lhs with
      | [l] =>
        if l = ['1'] then
          Except.ok ⟨String.mk grp, true, true, none, false⟩
        else if isIdent l && l ≠ ['0'] && l ≠ ['1'] then
          Except.ok ⟨String.mk l, inferCat d (String.mk l), true, some (String.mk grp), true⟩
        else Except.error "malformed random effect specification"
      | [z, e] =>
        if z = ['0'] && isIdent e && e ≠ ['0'] && e ≠ ['1'] then
          Except.ok ⟨String.mk e, inferCat d (String.mk e), true, some (String.mk grp), false⟩
        else Except.error "malformed random effect specification"
      | _ => Except.error "malformed random effect specification"
  | _ => Except.error "malformed random effect specification"

/-- Modelled from the spec, section 4.2: parse the fixed-effect part of a
formula `response ~ rhs` (whitespace insensitive; `+`-separated terms; a
`0` token suppresses the intercept, a `1` token or the default adds it) and
the random-effect specification list, producing the model's term-spec list
in order: intercept first when present, then the fixed effects, then the
random effects.  Fixed categorical terms use reference coding exactly when
an intercept is present. -/
def parseModelSpecs (d : DataTable) (formula : String) (randomSpecs : List String) :
    Except String (String × List TermSpec) :=
  let stripped := formula.data.filter (· ≠ ' ')
  match splitAll '~' stripped with
  | [lhs, rhs] =>
    if !isIdent lhs then Except.error "malformed formula"
    else
      let toks := splitAll '+' rhs
      if !toks.all (fun t => t = ['0'] || t = ['1'] || isIdent t) then
        Except.error "malformed formula"
      else
        let haveIntercept := !toks.contains ['0']
        let vars := toks.filter (fun t => t ≠ ['0'] && t ≠ ['1'])
        let fixedSpecs := vars.map (fun v =>
          (⟨String.mk v, inferCat d (String.mk v), false, none, haveIntercept⟩ : TermSpec))
        let base := if haveIntercept then
            [(⟨"Intercept", false, false, none, false⟩ : TermSpec)] ++ fixedSpecs
          else fixedSpecs
        match randomSpecs.mapM (parseRandomTerm d) with
        | Except.error e => Except.error e
        | Except.ok rand => Except.ok (String.mk lhs, base ++ rand)
  | _ => Except.error "malformed formula"

/-- Modelled from the spec: one incremental construction call. -/
inductive AddOp where
  | addIntercept
  | addTerm (var : String) (over : Option String) (random : Bool)
      (categorical : Option Bool) (dropFirst : Bool)
deriving DecidableEq

/-- The term name an incremental call stores its term under
(`effect|group` for a grouped random term). -/
def AddOp.termName : AddOp → String
  | .addIntercept => "Intercept"
  | .addTerm v over _ _ _ =>
    match over with
    | some g => v ++ "|" ++ g
    | none => v

/-- The term spec an incremental call creates (`categorical` defaults to
the type inferred from the data, as `add_term` does). -/
def AddOp.spec (d : DataTable) : AddOp → TermSpec
  | .addIntercept => ⟨"Intercept", false, false, none, false⟩
  | .addTerm v over random catFlag dropFirst =>
    ⟨v, catFlag.getD (inferCat d v), random, over, dropFirst⟩

/-- Insert-or-replace into the name-keyed `terms` mapping. -/
def upsertTerm (name : String) (s : TermSpec) :
    List (String × TermSpec) → List (String × TermSpec)
  | [] => [(name, s)]
  | (n, t) :: rest =>
    if n = name then (n, s) :: rest else (n, t) :: upsertTerm name s rest

/-- Modelled from the spec: run the incremental construction calls,
accumulating the insertion-ordered `terms` mapping. -/
def runOps (d : DataTable) (ops : List AddOp) : List (String × TermSpec) :=
  ops.foldl (fun acc op => upsertTerm op.termName (op.spec d) acc) []

/-- The nominal effects of an incrementally built model: its term specs,
names forgotten. -/
def specsOfTermMap (m : List (String × TermSpec)) : List TermSpec :=
  m.map (·.2)

/-! ## Build-time missing-value handling (spec-modelled, C8) -/

/-- Modelled from the spec: a term's raw data block at build time, rows of
optional rationals; `none` is a NaN cell. -/
structure RawTerm where
  name : String
  data : List (List (Option ℚ))
deriving DecidableEq

/-- The model's row count before any drop. -/
def rawRows (terms : List RawTerm) : Nat :=
  match terms with
  | [] => 0
  | t :: _ => t.data.length

/-- Does some term have a NaN cell in row `i`? -/
def rowHasNaN (terms : List RawTerm) (i : Nat) : Bool :=
  terms.any (fun t =>
    match t.data.get? i with
    | some row => row.any (·.isNone)
    | none => false)

/-- Indices of the rows marked incomplete. -/
def nanRowIdxs (terms : List RawTerm) : List Nat :=
  (List.range (rawRows terms)).filter (rowHasNaN terms)

/-- Remove the listed row indices from one term's block. -/
def dropRowsFrom (bad : List Nat) (t : RawTerm) : RawTerm :=
  ⟨t.name, (t.data.enum.filter (fun p => p.1 ∉ bad)).map (·.2)⟩

/-- Modelled from the spec: the user-visible warning stating exactly how
many rows were dropped. -/
def dropWarnMsg (n : Nat) : String :=
  "Automatically removing " ++ toString n ++ " rows from the dataset."

/-- Modelled from the spec, section 4.2: the single build-time validation
transition.  With incomplete rows present, `build` fails with a validation
error unless the model is configured to silently drop them, in which case
it drops exactly those rows and emits the counting warning. -/
def buildModel (dropna : Bool) (terms : List RawTerm) :
    Except String (List RawTerm × List String) :=
  let bad := nanRowIdxs terms
  if bad.isEmpty then Except.ok (terms, [])
  else if dropna then
    Except.ok (terms.map (dropRowsFrom bad), [dropWarnMsg bad.length])
  else Except.error "missing values in the data"

/-! ## Derived definitions and witness fixtures -/

/-- The string decomposes as something followed by the literal `_sd`. -/
def SdTail (r : List Char) : Prop :=
  ∃ u, r = u ++ ['_', 's', 'd']

/-- Backend RVs used to instantiate the filtering claims: the transformed
`_sd` variable and its untransformed `_sd_log` companion. -/
def witnessRVs : List BackendRV :=
  [⟨"u_x|g_x_sd", true⟩, ⟨"u_x|g_x_sd_log", false⟩, ⟨"b_a", false⟩]

/-- Trace variable names matching `witnessRVs`. -/
def witnessVarnames : List String :=
  ["u_x|g_x_sd", "u_x|g_x_sd_log", "b_a"]

/-- A concrete model used to instantiate the universally quantified claim
theorems: the terms and level labels of the test fixtures. -/
def witnessModel : ModelEmb :=
  ⟨[⟨"BMI".data, ["BMI".data]⟩,
    ⟨"S1".data, ["S1".data]⟩,
    ⟨"threecats".data,
      ["threecats[a]".data, "threecats[b]".data, "threecats[c]".data]⟩,
    ⟨"threecats|subj".data, ["lvl0".data, "lvl1".data, "lvl2".data]⟩],
   ["threecats|subj".data],
   ["BMI".data, "S1".data, "threecats".data]⟩

/-- The base column list after the diagnostic-append step. -/
def diagCols (s : SummarySpec) : List String :=
  if s.nchains > 1 then s.baseCols ++ ["effective_n", "gelman_rubin"] else s.baseCols

/-- The warnings of the diagnostic step. -/
def diagWarns (s : SummarySpec) : List String :=
  if s.nchains > 1 then [] else [noDiagMsg]

/-- Summary state used by the summary/plot witnesses: a single chain, a
binomial 0/1 response. -/
def witnessSummary : SummarySpec :=
  ⟨["mean", "sd", "mc_error"], 1, "binomial", [0, 1, 0], "y", ["no", "yes", "no"]⟩

/-- Data table for the construction witnesses: a numeric response and a
three-level category over six rows. -/
def witnessData : DataTable :=
  [("Y", [.num 1, .num 2, .num 3, .num 4, .num 5, .num 6]),
   ("threecats", [.cat "a", .cat "a", .cat "b", .cat "b", .cat "c", .cat "c"])]

/-- The incremental calls mirroring the formula `Y ~ 0 + threecats`
(`add_term('threecats', drop_first=False)` of the cell-means test). -/
def witnessOps : List AddOp :=
  [.addTerm "threecats" none false none false]

/-- Raw term data for the C8 witness: one term, six rows, NaN in rows 2, 4
and 5. -/
def witnessTerms : List RawTerm :=
  [⟨"continuous",
    [[some 1], [some 1], [none], [some 1], [none], [none]]⟩]

/-! ## Helper lemmas about the matchers -/

/-- Names whose first two characters are not `b_` or `u_` fail `re1`. -/
theorem prettifyRe1_eq_none (nd : List Char)
    (hb : ∀ t, nd ≠ 'b' :: '_' :: t) (hu : ∀ t, nd ≠ 'u' :: '_' :: t) :
    prettifyRe1 nd = none := by
  match nd with
  | [] => rfl
  | [c] => rfl
  | c :: c2 :: t =>
    by_cases h2 : c2 = '_'
    · subst h2
      have hcb : c ≠ 'b' := fun h => hb t (by rw [h])
      have hcu : c ≠ 'u' := fun h => hu t (by rw [h])
      simp [prettifyRe1, hcb, hcu]
    · simp only [prettifyRe1]
      split
      · rename_i c' t' heq
        injection heq with h1 h2'
        injection h2' with h2'' _
        exact absurd h2'' h2
      · rfl

/-- A successful `re1Tail3` never fires on a list whose characters are all
underscores or digits and whose head is an underscore... (auxiliary): on a
list of underscores and digits, both `re1Body` and `re1ClassRun` fail. -/
theorem re1_fail_on_index_chars (r : List Char)
    (h : ∀ x ∈ r, x = '_' ∨ x.isDigit = true) :
    re1Body r = none ∧ re1ClassRun r = none := by
  induction r with
  | nil => exact ⟨rfl, rfl⟩
  | cons x rest ih =>
    have hx : x = '_' ∨ x.isDigit = true := h x (List.mem_cons_self x rest)
    have hrest : ∀ y ∈ rest, y = '_' ∨ y.isDigit = true :=
      fun y hy => h y (List.mem_cons_of_mem x hy)
    have ⟨ihb, ihc⟩ := ih hrest
    have hclass : isRe1ClassChar x = false := by
      rcases hx with h1 | h1
      · simp [isRe1ClassChar, h1]
      · simp [isRe1ClassChar, h1]
    constructor
    · simp only [re1Body, ihb, ihc]
      rfl
    · simp only [re1ClassRun, hclass]
      rfl

/-- One-step unfolding of `re1Body` at a cons cell. -/
theorem re1Body_cons_eq (a : Char) (rest : List Char) :
    re1Body (a :: rest) =
      match re1Body rest with
      | some (x, y, g) => some (x + 1, y, g)
      | none => (re1ClassRun rest).map (fun p => (1, p.1, p.2)) := rfl

/-- One-step unfolding of `re1ClassRun` at a cons cell. -/
theorem re1ClassRun_cons_eq (c : Char) (rest : List Char) :
    re1ClassRun (c :: rest) =
      if isRe1ClassChar c then
        match re1ClassRun rest with
        | some (b, g3) => some (b + 1, g3)
        | none => (re1Tail3 rest).map (fun g3 => (1, g3))
      else none := rfl

/-- Prepending any character to a string on which `re1Body` succeeds lets
the greedy `.+` swallow it. -/
theorem re1Body_cons_of_some (a : Char) (l : List Char)
    (x : Nat) (y : Nat) (g : Option (List Char)) (h : re1Body l = some (x, y, g)) :
    re1Body (a :: l) = some (x + 1, y, g) := by
  rw [re1Body_cons_eq, h]

/-- Greedy resolution of `re1Body` for a name with no trailing index: with a
final class character, the `.+` swallows everything before it and group 3 is
absent. -/
theorem re1Body_no_index (t : List Char) (c : Char)
    (hc : isRe1ClassChar c = true) (h0 : t ≠ []) :
    re1Body (t ++ [c]) = some (t.length, 1, none) := by
  induction t with
  | nil => exact absurd rfl h0
  | cons a t' ih =>
    by_cases ht' : t' = []
    · subst ht'
      simp [re1Body, re1ClassRun, re1Tail3, hc]
    · rw [List.cons_append]
      rw [re1Body_cons_of_some a (t' ++ [c]) t'.length 1 none (ih ht')]
      simp

/-- Greedy resolution of `re1Body` for a name with a trailing `__<digits>`
index: group 2 ends at the last class character, group 3 captures the
index. -/
theorem re1Body_with_index (t : List Char) (c : Char) (ds : List Char)
    (hc : isRe1ClassChar c = true) (h0 : t ≠ [])
    (hds : ds ≠ []) (hdig : ds.all (·.isDigit) = true) :
    re1Body (t ++ c :: '_' :: '_' :: ds) =
      some (t.length, 1, some ('_' :: '_' :: ds)) := by
  have hidx : ∀ x ∈ ('_' :: '_' :: ds), x = '_' ∨ x.isDigit = true := by
    intro x hx
    simp only [List.mem_cons] at hx
    rcases hx with rfl | rfl | hx
    · exact Or.inl rfl
    · exact Or.inl rfl
    · exact Or.inr (by
        have := List.all_eq_true.mp hdig x hx
        simpa using this)
  have hfail := re1_fail_on_index_chars ('_' :: '_' :: ds) hidx
  have hrun : re1ClassRun (c :: '_' :: '_' :: ds) =
      some (1, some ('_' :: '_' :: ds)) := by
    rw [re1ClassRun_cons_eq, hc, if_pos rfl, hfail.2]
    cases ds with
    | nil => exact absurd rfl hds
    | cons d ds' =>
      simp only [re1Tail3]
      rw [if_pos (by simpa using hdig)]
      rfl
  have hbase : re1Body (c :: '_' :: '_' :: ds) = none := by
    rw [re1Body_cons_eq, hfail.1, hfail.2]
    rfl
  induction t with
  | nil => exact absurd rfl h0
  | cons a t' ih =>
    by_cases ht' : t' = []
    · subst ht'
      rw [List.singleton_append, re1Body_cons_eq, hbase, hrun]
      rfl
    · rw [List.cons_append]
      rw [re1Body_cons_of_some a _ t'.length 1 (some ('_' :: '_' :: ds)) (ih ht')]
      simp

/-- `re1` on a no-index fixed-effect name. -/
theorem prettifyRe1_no_index (t : List Char) (c : Char) (u : Char)
    (hu : u = 'b' ∨ u = 'u') (hc : isRe1ClassChar c = true) (h0 : t ≠ []) :
    prettifyRe1 (u :: '_' :: (t ++ [c])) = some (u, t ++ [c], none) := by
  have hbody := re1Body_no_index t c hc h0
  have htake : (t ++ [c]).take (t.length + 1) = t ++ [c] := by
    have : (t ++ [c]).length = t.length + 1 := by simp
    rw [← this, List.take_length]
  rcases hu with h | h <;> subst h <;> simp [prettifyRe1, hbody, htake]

/-- `re1` on an indexed name. -/
theorem prettifyRe1_with_index (t : List Char) (c : Char) (ds : List Char) (u : Char)
    (hu : u = 'b' ∨ u = 'u') (hc : isRe1ClassChar c = true) (h0 : t ≠ [])
    (hds : ds ≠ []) (hdig : ds.all (·.isDigit) = true) :
    prettifyRe1 (u :: '_' :: (t ++ c :: '_' :: '_' :: ds)) =
      some (u, t ++ [c], some ('_' :: '_' :: ds)) := by
  have hbody := re1Body_with_index t c ds hc h0 hds hdig
  have htake : (t ++ c :: '_' :: '_' :: ds).take (t.length + 1) = t ++ [c] := by
    have h1 : t ++ c :: '_' :: '_' :: ds = (t ++ [c]) ++ '_' :: '_' :: ds := by simp
    have h2 : (t ++ [c]).length = t.length + 1 := by simp
    rw [h1, ← h2, List.take_left]
  rcases hu with h | h <;> subst h <;> simp [prettifyRe1, hbody, htake]

/-- Without a `'|'` there is no first-pipe split. -/
theorem splitFirst_eq_none (sep : Char) (l : List Char) (h : sep ∉ l) :
    splitFirst sep l = none := by
  induction l with
  | nil => rfl
  | cons c rest ih =>
    have hc : c ≠ sep := fun he => h (he ▸ List.mem_cons_self c rest)
    have hr : sep ∉ rest := fun hm => h (List.mem_cons_of_mem c hm)
    simp [splitFirst, hc, ih hr]

/-- Without a `'|'`, `re2` fails. -/
theorem re2Match_eq_none (s : List Char) (h : '|' ∉ s) : re2Match s = none := by
  simp [re2Match, splitFirst_eq_none '|' s h]


theorem sdTail_of_re3End (r : List Char) (h : re3End r = true) : SdTail r :=
  ⟨[], by simpa [re3End] using h⟩

theorem sdTail_cons (c : Char) (r : List Char) (h : SdTail r) : SdTail (c :: r) := by
  obtain ⟨u, rfl⟩ := h
  exact ⟨c :: u, rfl⟩

theorem sdTail_extend (v r : List Char) (h : SdTail r) : SdTail (v ++ r) := by
  obtain ⟨u, rfl⟩ := h
  exact ⟨v ++ u, by simp⟩

/-- Unfolding `orElse` on an `Option` scrutinee. -/
theorem option_orElse_none {α : Type} (f : Unit → Option α) :
    (none : Option α).orElse f = f () := rfl

/-- Unfolding `orElse` on a successful first attempt. -/
theorem option_orElse_some {α : Type} (v : α) (f : Unit → Option α) :
    (some v).orElse f = some v := rfl

/-- Whatever `re3Bracket` accepts ends in `_sd` (after the `'['`). -/
theorem sdTail_of_re3Bracket (rest : List Char) (g : Option (List Char))
    (h : re3Bracket rest = some g) : SdTail rest := by
  unfold re3Bracket at h
  split at h
  · split at h
    · rename_i r2 hdrop
      split at h
      · rename_i hend
        rw [← List.take_append_drop ((rest.takeWhile (·.isDigit)).length) rest, hdrop]
        exact sdTail_extend _ _ (sdTail_cons ']' r2 (sdTail_of_re3End r2 hend))
      · exact absurd h (by simp)
    · exact absurd h (by simp)
  · exact absurd h (by simp)

/-- Whatever `re3Group4` accepts ends in `_sd`. -/
theorem sdTail_of_re3Group4 (r : List Char) (g : Option (List Char))
    (h : re3Group4 r = some g) : SdTail r := by
  rw [re3Group4.eq_def] at h
  split at h
  · rename_i rest
    rcases hb : re3Bracket rest with _ | v
    · rw [hb, option_orElse_none] at h
      split at h
      · exact sdTail_of_re3End _ (by assumption)
      · exact absurd h (by simp)
    · exact sdTail_cons '[' rest (sdTail_of_re3Bracket rest v hb)
  · split at h
    · exact sdTail_of_re3End _ (by assumption)
    · exact absurd h (by simp)

/-- Whatever `re3Backref` accepts ends in `_sd`. -/
theorem sdTail_of_re3Backref (g1 r : List Char)
    (g : Option (List Char) × Option (List Char))
    (h : re3Backref g1 r = some g) : SdTail r := by
  rw [re3Backref.eq_def] at h
  split at h
  · rename_i r2
    split at h
    · rcases hg4 : re3Group4 (r2.drop g1.length) with _ | g4
      · rw [hg4] at h
        exact absurd h (by simp)
      · have hsub := sdTail_of_re3Group4 _ g4 hg4
        refine sdTail_cons '_' r2 ?_
        rw [← List.take_append_drop g1.length r2]
        exact sdTail_extend _ _ hsub
    · exact absurd h (by simp)
  · exact absurd h (by simp)

/-- Whatever `re3Group3` accepts ends in `_sd`. -/
theorem sdTail_of_re3Group3 (g1 r : List Char)
    (g : Option (List Char) × Option (List Char))
    (h : re3Group3 g1 r = some g) : SdTail r := by
  unfold re3Group3 at h
  rcases hfirst : re3Backref g1 r with _ | v
  · rw [hfirst, option_orElse_none] at h
    rcases hg4 : re3Group4 r with _ | g4
    · rw [hg4] at h
      exact absurd h (by simp)
    · exact sdTail_of_re3Group4 r g4 hg4
  · exact sdTail_of_re3Backref g1 r v hfirst

/-- Whatever `re3Group2Run` accepts ends in `_sd`. -/
theorem sdTail_of_re3Group2Run (g1 : List Char) (r : List Char)
    (g : Nat × Option (List Char) × Option (List Char))
    (h : re3Group2Run g1 r = some g) : SdTail r := by
  induction r generalizing g with
  | nil => exact absurd h (by simp [re3Group2Run])
  | cons c rest ih =>
    rw [show re3Group2Run g1 (c :: rest) =
        (if isRe2ClassChar c then
          match re3Group2Run g1 rest with
          | some (b, g3, g4) => some (b + 1, g3, g4)
          | none => (re3Group3 g1 rest).map (fun p => (1, p.1, p.2))
        else none) from rfl] at h
    split at h
    · rcases hrec : re3Group2Run g1 rest with _ | v
      · rw [hrec] at h
        rcases hg3 : re3Group3 g1 rest with _ | w
        · rw [hg3] at h
          exact absurd h (by simp)
        · exact sdTail_cons c rest (sdTail_of_re3Group3 g1 rest w hg3)
      · exact sdTail_cons c rest (ih v hrec)
    · exact absurd h (by simp)

/-- Whatever `re3Pipe` accepts ends in `_sd`. -/
theorem sdTail_of_re3Pipe (g1 r : List Char)
    (g : Option (List Char) × Option (List Char) × Option (List Char))
    (h : re3Pipe g1 r = some g) : SdTail r := by
  rw [re3Pipe.eq_def] at h
  split at h
  · rename_i r2
    rcases hrun : re3Group2Run g1 r2 with _ | v2
    · rw [hrun] at h
      exact absurd h (by simp)
    · exact sdTail_cons '|' r2 (sdTail_of_re3Group2Run g1 r2 v2 hrun)
  · exact absurd h (by simp)

/-- Whatever `re3Group2` accepts ends in `_sd`. -/
theorem sdTail_of_re3Group2 (g1 r : List Char)
    (g : Option (List Char) × Option (List Char) × Option (List Char))
    (h : re3Group2 g1 r = some g) : SdTail r := by
  unfold re3Group2 at h
  rcases hfirst : re3Pipe g1 r with _ | v
  · rw [hfirst, option_orElse_none] at h
    rcases hg3 : re3Group3 g1 r with _ | w
    · rw [hg3] at h
      exact absurd h (by simp)
    · exact sdTail_of_re3Group3 g1 r w hg3
  · exact sdTail_of_re3Pipe g1 r v hfirst

/-- Whatever `re3TryG1` accepts ends in `_sd`. -/
theorem sdTail_of_re3TryG1 (s : List Char) (n : Nat)
    (g : List Char × Option (List Char) × Option (List Char) × Option (List Char))
    (h : re3TryG1 s n = some g) : SdTail s := by
  induction n generalizing g with
  | zero => exact absurd h (by simp [re3TryG1])
  | succ n ih =>
    rw [show re3TryG1 s (n + 1) =
        (match re3Group2 (s.take (n + 1)) (s.drop (n + 1)) with
         | some (g2, g3, g4) => some (s.take (n + 1), g2, g3, g4)
         | none => re3TryG1 s n) from rfl] at h
    rcases hg2 : re3Group2 (s.take (n + 1)) (s.drop (n + 1)) with _ | v
    · rw [hg2] at h
      exact ih g h
    · rw [← List.take_append_drop (n + 1) s]
      exact sdTail_extend _ _ (sdTail_of_re3Group2 _ _ v hg2)

/-- A name accepted by `re3` ends in `_sd`. -/
theorem endsWithSd_of_re3Match (s : List Char)
    (g : List Char × Option (List Char) × Option (List Char) × Option (List Char))
    (h : re3Match s = some g) : endsWithSd s = true := by
  obtain ⟨u, rfl⟩ := sdTail_of_re3TryG1 s _ g h
  unfold endsWithSd
  unfold List.isSuffixOf
  rw [List.reverse_append]
  have : ∀ (l t : List Char), l.isPrefixOf (l ++ t) = true := by
    intro l
    induction l with
    | nil => intro t; simp [List.isPrefixOf]
    | cons a as ihl => intro t; simp [List.isPrefixOf, ihl]
  exact this (['_', 's', 'd'].reverse) u.reverse

/-- A name that does not end in `_sd` fails `re3`. -/
theorem re3Match_eq_none (s : List Char) (h : endsWithSd s = false) :
    re3Match s = none := by
  rcases hm : re3Match s with _ | g
  · rfl
  · rw [endsWithSd_of_re3Match s g hm] at h
    exact absurd h (by simp)

/-- A list is a `isPrefixOf`-prefix of itself followed by anything. -/
theorem isPrefixOf_self_append (l t : List Char) : l.isPrefixOf (l ++ t) = true := by
  induction l with
  | nil => simp [List.isPrefixOf]
  | cons a as ih => simp [List.isPrefixOf, ih]

/-- `splitFirst` splits at the first separator occurrence. -/
theorem splitFirst_pipe (eff rest : List Char) (he : '|' ∉ eff) :
    splitFirst '|' (eff ++ '|' :: rest) = some (eff, rest) := by
  induction eff with
  | nil => simp [splitFirst]
  | cons c cs ih =>
    have hc : c ≠ '|' := fun h => he (h ▸ List.mem_cons_self c cs)
    have hcs : '|' ∉ cs := fun h => he (List.mem_cons_of_mem c h)
    simp [splitFirst, hc, ih hcs]

/-- One-step unfolding of `filterG2Run` at a cons cell. -/
theorem filterG2Run_cons_eq (g1 : List Char) (c : Char) (rest : List Char) :
    filterG2Run g1 (c :: rest) =
      if isRe2ClassChar c then
        match filterG2Run g1 rest with
        | some (b, g3) => some (b + 1, g3)
        | none =>
          match rest with
          | '_' :: r2 =>
            if g1.isPrefixOf r2 then some (1, filterTail3 (r2.drop g1.length)) else none
          | _ => none
      else none := rfl

/-- Greedy resolution of the canonicalization regex after the `'|'`: a class
run `grp` followed by the `'_'`, the backreference `g1` and an arbitrary
tail resolves with group 2 of length `grp.length` and group 3 present
exactly when the tail ends in `_sd`. -/
theorem filterG2Run_resolve (g1 grp tail : List Char) (h0 : grp ≠ [])
    (hcls : grp.all isRe2ClassChar = true) :
    filterG2Run g1 (grp ++ '_' :: (g1 ++ tail)) =
      some (grp.length, filterTail3 tail) := by
  induction grp with
  | nil => exact absurd rfl h0
  | cons g grp' ih =>
    have hg : isRe2ClassChar g = true := by
      have := List.all_eq_true.mp hcls g (List.mem_cons_self g grp')
      simpa using this
    have hcls' : grp'.all isRe2ClassChar = true := by
      rw [List.all_eq_true]
      intro x hx
      exact List.all_eq_true.mp hcls x (List.mem_cons_of_mem g hx)
    by_cases h' : grp' = []
    · subst h'
      rw [List.singleton_append, filterG2Run_cons_eq, hg, if_pos rfl]
      have hinner : filterG2Run g1 ('_' :: (g1 ++ tail)) = none := by
        rw [filterG2Run_cons_eq]
        have : isRe2ClassChar '_' = false := by decide
        rw [this]
        rfl
      rw [hinner]
      simp [isPrefixOf_self_append, List.drop_left]
    · rw [List.cons_append, filterG2Run_cons_eq, hg, if_pos rfl, ih h' hcls']
      simp

/-- Greedy resolution of the full canonicalization regex on a name of the
shape `u_<eff>|<grp>_<eff><tail>`. -/
theorem filterRe_resolve (eff grp tail : List Char) (he : '|' ∉ eff)
    (h0e : eff ≠ []) (h0g : grp ≠ []) (hcls : grp.all isRe2ClassChar = true) :
    filterRe ('u' :: '_' :: (eff ++ '|' :: (grp ++ '_' :: (eff ++ tail)))) =
      some (eff, grp, filterTail3 tail) := by
  have hsplit := splitFirst_pipe eff (grp ++ '_' :: (eff ++ tail)) he
  have hrun := filterG2Run_resolve eff grp tail h0g hcls
  have htake : (grp ++ '_' :: (eff ++ tail)).take grp.length = grp :=
    List.take_left grp _
  simp [filterRe, hsplit, hrun, htake, h0e]

/-! ## Witness fixtures -/






/-- Decomposition of a successful `summaryRun`. -/
theorem summaryRun_eq_some (s : SummarySpec) (mc : Bool) (cols warns : List String)
    (h : summaryRun s mc = some (cols, warns)) :
    ∃ w : Option String,
      binomialWarning s.familyName s.ydata s.yName s.rawY = some w ∧
      warns = diagWarns s ++ w.toList ∧
      ((mc = true ∧ cols = diagCols s) ∨
       (mc = false ∧ "mc_error" ∈ diagCols s ∧
        cols = (diagCols s).filter (· ≠ "mc_error"))) := by
  unfold summaryRun at h
  rw [show (if s.nchains > 1 then s.baseCols ++ ["effective_n", "gelman_rubin"]
        else s.baseCols) = diagCols s from rfl] at h
  rw [show (if s.nchains > 1 then ([] : List String) else [noDiagMsg]) =
        diagWarns s from rfl] at h
  cases mc with
  | true =>
    dsimp only at h
    rcases hw : binomialWarning s.familyName s.ydata s.yName s.rawY with _ | w
    · rw [hw] at h
      exact absurd h (by simp)
    · rw [hw] at h
      simp only [if_true, Option.some.injEq, Prod.mk.injEq] at h
      exact ⟨w, rfl, h.2.symm, Or.inl ⟨rfl, h.1.symm⟩⟩
  | false =>
    dsimp only at h
    by_cases hm : "mc_error" ∈ diagCols s
    · rw [if_pos hm] at h
      rcases hw : binomialWarning s.familyName s.ydata s.yName s.rawY with _ | w
      · rw [hw] at h
        exact absurd h (by simp)
      · rw [hw] at h
        simp only [Bool.false_eq_true, if_false, Option.some.injEq, Prod.mk.injEq] at h
        exact ⟨w, rfl, h.2.symm, Or.inr ⟨rfl, hm, h.1.symm⟩⟩
    · rw [if_neg hm] at h
      exact absurd h (by simp)

/-! ## Claim C6 -/

/-- C6: the convergence-diagnostic columns `effective_n` and `gelman_rubin`
are appended if and only if the trace has at least two chains; with fewer
than two chains the no-diagnostics warning is emitted and neither
diagnostic column appears in the result. -/
theorem claim6_diagnostics_iff_multichain (s : SummarySpec) (mc : Bool)
    (cols warns : List String) (h : summaryRun s mc = some (cols, warns))
    (h1 : "effective_n" ∉ s.baseCols) (h2 : "gelman_rubin" ∉ s.baseCols) :
    (("effective_n" ∈ cols ∧ "gelman_rubin" ∈ cols) ↔ 2 ≤ s.nchains) ∧
    (s.nchains < 2 →
      noDiagMsg ∈ warns ∧ "effective_n" ∉ cols ∧ "gelman_rubin" ∉ cols) := by
  obtain ⟨w, _, hwarns, hcols⟩ := summaryRun_eq_some s mc cols warns h
  have hmemiff : ∀ y : String, y ≠ "mc_error" → (y ∈ cols ↔ y ∈ diagCols s) := by
    intro y hy
    rcases hcols with ⟨_, rfl⟩ | ⟨_, _, rfl⟩
    · exact Iff.rfl
    · simp [List.mem_filter, hy]
  by_cases hn : s.nchains > 1
  · have hdc : diagCols s = s.baseCols ++ ["effective_n", "gelman_rubin"] := by
      unfold diagCols
      rw [if_pos hn]
    constructor
    · constructor
      · intro _
        omega
      · intro _
        constructor
        · rw [hmemiff _ (by decide), hdc]
          simp
        · rw [hmemiff _ (by decide), hdc]
          simp
    · intro hlt
      omega
  · have hdc : diagCols s = s.baseCols := by
      unfold diagCols
      rw [if_neg hn]
    have heff : "effective_n" ∉ cols := by
      rw [hmemiff _ (by decide), hdc]
      exact h1
    have hgr : "gelman_rubin" ∉ cols := by
      rw [hmemiff _ (by decide), hdc]
      exact h2
    constructor
    · constructor
      · intro hx
        exact absurd hx.1 heff
      · intro hx
        omega
    · intro _
      refine ⟨?_, heff, hgr⟩
      rw [hwarns]
      have : diagWarns s = [noDiagMsg] := by
        unfold diagWarns
        rw [if_neg hn]
      rw [this]
      exact List.mem_append_left _ (List.mem_cons_self _ _)


/-- Witness for C6 at the single-chain `witnessSummary`. -/
theorem claim6_witness :
    (summaryRun witnessSummary false =
      some (["mean", "sd"], [noDiagMsg, eventMsg "y" "yes"])) ∧
    ((("effective_n" ∈ ["mean", "sd"] ∧ "gelman_rubin" ∈ ["mean", "sd"]) ↔
        2 ≤ witnessSummary.nchains) ∧
      (witnessSummary.nchains < 2 →
        noDiagMsg ∈ [noDiagMsg, eventMsg "y" "yes"] ∧
        "effective_n" ∉ ["mean", "sd"] ∧ "gelman_rubin" ∉ ["mean", "sd"])) :=
  ⟨by decide,
   claim6_diagnostics_iff_multichain witnessSummary false ["mean", "sd"]
     [noDiagMsg, eventMsg "y" "yes"] (by decide) (by decide) (by decide)⟩

/-! ## Claim C7 -/

/-- C7: for a binomial-family model whose encoded response has maximum
below 1.01 and some value above 0.99, both `summary` and `plot` emit the
event-coding warning naming the raw data value at the first row whose
encoded response exceeds 0.99 (`findIdx?` returns the first such index). -/
theorem claim7_binomial_event_warning (s : SummarySpec) (i : Nat) (v : String)
    (mx : ℚ) (hfam : s.familyName = "binomial") (hmax : maxQ s.ydata = some mx)
    (hlt : mx < mkRat 101 100)
    (hidx : s.ydata.findIdx? (fun x => mkRat 99 100 < x) = some i)
    (hv : s.rawY.get? i = some v) :
    (∀ (mc : Bool) (cols warns : List String),
      summaryRun s mc = some (cols, warns) → eventMsg s.yName v ∈ warns) ∧
    plotWarnings s = some [eventMsg s.yName v] := by
  have hb : binomialWarning s.familyName s.ydata s.yName s.rawY =
      some (some (eventMsg s.yName v)) := by
    unfold binomialWarning
    rw [if_pos hfam, hmax]
    dsimp only
    rw [if_pos hlt, hidx]
    dsimp only
    rw [hv]
  constructor
  · intro mc cols warns h
    obtain ⟨w, hw, hwarns, _⟩ := summaryRun_eq_some s mc cols warns h
    rw [hb] at hw
    have hwv : w = some (eventMsg s.yName v) := by
      injection hw.symm
    rw [hwarns, hwv]
    exact List.mem_append_right _ (List.mem_cons_self _ _)
  · unfold plotWarnings
    rw [hb]
    rfl

/-- Witness for C7 at `witnessSummary`: data value `yes` at the first
encoded value above 0.99. -/
theorem claim7_witness :
    (witnessSummary.familyName = "binomial" ∧
      maxQ witnessSummary.ydata = some 1 ∧
      witnessSummary.ydata.findIdx? (fun x => mkRat 99 100 < x) = some 1 ∧
      witnessSummary.rawY.get? 1 = some "yes") ∧
    plotWarnings witnessSummary = some [eventMsg "y" "yes"] :=
  ⟨⟨rfl, by decide, by decide, by decide⟩,
   (claim7_binomial_event_warning witnessSummary 1 "yes" 1 rfl (by decide)
     (by decide) (by decide) (by decide)).2⟩

/-! ## Claim C10 -/

/-- C10: with the default `mc_error=False`, the returned table never has an
`mc_error` column, whatever the trace and filtering arguments; the column
survives only when the caller passes `mc_error=True`. -/
theorem claim10_mc_error_dropped :
    (∀ (s : SummarySpec) (cols warns : List String),
      summaryRun s false = some (cols, warns) → "mc_error" ∉ cols) ∧
    (∀ (s : SummarySpec) (cols warns : List String),
      "mc_error" ∈ s.baseCols → summaryRun s true = some (cols, warns) →
      "mc_error" ∈ cols) := by
  constructor
  · intro s cols warns h hmem
    obtain ⟨w, _, _, hcols⟩ := summaryRun_eq_some s false cols warns h
    rcases hcols with ⟨hfalse, _⟩ | ⟨_, _, rfl⟩
    · exact absurd hfalse (by simp)
    · have := (List.mem_filter.mp hmem).2
      simp at this
  · intro s cols warns hbase h
    obtain ⟨w, _, _, hcols⟩ := summaryRun_eq_some s true cols warns h
    rcases hcols with ⟨_, rfl⟩ | ⟨hfalse, _⟩
    · unfold diagCols
      by_cases hn : s.nchains > 1
      · rw [if_pos hn]
        exact List.mem_append_left _ hbase
      · rw [if_neg hn]
        exact hbase
    · exact absurd hfalse (by simp)

/-- Witness for C10 at `witnessSummary`. -/
theorem claim10_witness :
    (summaryRun witnessSummary false =
      some (["mean", "sd"], [noDiagMsg, eventMsg "y" "yes"])) ∧
    "mc_error" ∉ ["mean", "sd"] :=
  ⟨by decide,
   claim10_mc_error_dropped.1 witnessSummary ["mean", "sd"]
     [noDiagMsg, eventMsg "y" "yes"] (by decide)⟩

/-! ## Claim C1 -/

/-- Membership in a filtered flat-map depends only on the membership of the
underlying spec list. -/
theorem mem_filter_flatMap_congr {α : Type} (f : TermSpec → List α)
    (p : TermSpec → Bool) (l0 l1 : List TermSpec)
    (hset : ∀ s, s ∈ l0 ↔ s ∈ l1) (x : α) :
    x ∈ (l0.filter p).flatMap f ↔ x ∈ (l1.filter p).flatMap f := by
  simp only [List.mem_flatMap, List.mem_filter]
  constructor
  · rintro ⟨s, ⟨hs, hp⟩, hx⟩
    exact ⟨s, ⟨(hset s).mp hs, hp⟩, hx⟩
  · rintro ⟨s, ⟨hs, hp⟩, hx⟩
    exact ⟨s, ⟨(hset s).mpr hs, hp⟩, hx⟩

/-- Membership in a mapped list depends only on the membership of the
underlying spec list. -/
theorem mem_map_congr {α : Type} (g : TermSpec → α) (l0 l1 : List TermSpec)
    (hset : ∀ s, s ∈ l0 ↔ s ∈ l1) (x : α) :
    x ∈ l0.map g ↔ x ∈ l1.map g := by
  simp only [List.mem_map]
  constructor
  · rintro ⟨s, hs, hx⟩
    exact ⟨s, (hset s).mp hs, hx⟩
  · rintro ⟨s, hs, hx⟩
    exact ⟨s, (hset s).mpr hs, hx⟩

/-- C1: a formula-built model and an incrementally built model specifying
the same nominal effects (the same set of term specs, term names and entry
order free) have the same set of fixed-effect design-matrix columns as
value tuples, the same set of random-effect columns, and the same set of
default prior hyperparameter tuples: every build product is a pure function
of the term specs and the data. -/
theorem claim1_path_equivalence (d : DataTable) (formula : String)
    (randoms : List String) (ops : List AddOp) (resp : String)
    (specs0 : List TermSpec)
    (_hparse : parseModelSpecs d formula randoms = Except.ok (resp, specs0))
    (hnominal : ∀ s : TermSpec, s ∈ specs0 ↔ s ∈ specsOfTermMap (runOps d ops)) :
    (∀ col, col ∈ buildFixedCols d specs0 ↔
      col ∈ buildFixedCols d (specsOfTermMap (runOps d ops))) ∧
    (∀ col, col ∈ buildRandomCols d specs0 ↔
      col ∈ buildRandomCols d (specsOfTermMap (runOps d ops))) ∧
    (∀ pr, pr ∈ buildPriors d specs0 ↔
      pr ∈ buildPriors d (specsOfTermMap (runOps d ops))) :=
  ⟨fun col => mem_filter_flatMap_congr (encodeTerm d) _ _ _ hnominal col,
   fun col => mem_filter_flatMap_congr (encodeTerm d) _ _ _ hnominal col,
   fun pr => mem_map_congr (priorTuple d) _ _ hnominal pr⟩



/-- Witness for C1: the cell-means model of the tests, built by formula and
by `add_term`, evaluates to the same column sets. -/
theorem claim1_witness :
    (parseModelSpecs witnessData "Y ~ 0 + threecats" [] =
      Except.ok ("Y", [⟨"threecats", true, false, none, false⟩]) ∧
     (∀ s : TermSpec, s ∈ [(⟨"threecats", true, false, none, false⟩ : TermSpec)] ↔
        s ∈ specsOfTermMap (runOps witnessData witnessOps))) ∧
    (∀ col, col ∈ buildFixedCols witnessData [⟨"threecats", true, false, none, false⟩] ↔
      col ∈ buildFixedCols witnessData (specsOfTermMap (runOps witnessData witnessOps))) :=
  ⟨⟨by rfl, fun s => by
      constructor
      · intro hs
        simpa [witnessOps, witnessData, runOps, specsOfTermMap, upsertTerm,
          AddOp.termName, AddOp.spec, inferCat, getCol, isCatCol] using hs
      · intro hs
        simpa [witnessOps, witnessData, runOps, specsOfTermMap, upsertTerm,
          AddOp.termName, AddOp.spec, inferCat, getCol, isCatCol] using hs⟩,
   (claim1_path_equivalence witnessData "Y ~ 0 + threecats" [] witnessOps "Y"
      [⟨"threecats", true, false, none, false⟩] (by rfl)
      (fun s => by
        constructor
        · intro hs
          simpa [witnessOps, witnessData, runOps, specsOfTermMap, upsertTerm,
            AddOp.termName, AddOp.spec, inferCat, getCol, isCatCol] using hs
        · intro hs
          simpa [witnessOps, witnessData, runOps, specsOfTermMap, upsertTerm,
            AddOp.termName, AddOp.spec, inferCat, getCol, isCatCol] using hs)).1⟩

/-! ## Claim C8 -/

/-- C8: with incomplete rows present, `build` without silent dropping fails
with the validation error and produces no model; with silent dropping
enabled and exactly 3 incomplete rows, `build` succeeds, drops those rows
and emits a warning whose text contains the literal substring `3 rows`. -/
theorem claim8_nan_build :
    (∀ terms : List RawTerm, nanRowIdxs terms ≠ [] →
      buildModel false terms = Except.error "missing values in the data") ∧
    (∀ terms : List RawTerm, (nanRowIdxs terms).length = 3 →
      buildModel true terms =
        Except.ok (terms.map (dropRowsFrom (nanRowIdxs terms)), [dropWarnMsg 3]) ∧
      hasSubstr "3 rows".data (dropWarnMsg 3).data = true) := by
  constructor
  · intro terms hne
    have hie : (nanRowIdxs terms).isEmpty = false := by
      rcases h : nanRowIdxs terms with _ | ⟨a, l⟩
      · exact absurd h hne
      · rfl
    unfold buildModel
    simp [hie]
  · intro terms h3
    have hne : nanRowIdxs terms ≠ [] := by
      intro he
      rw [he] at h3
      simp at h3
    have hie : (nanRowIdxs terms).isEmpty = false := by
      rcases h : nanRowIdxs terms with _ | ⟨a, l⟩
      · exact absurd h hne
      · rfl
    constructor
    · unfold buildModel
      simp only [hie, Bool.false_eq_true, if_false, eq_self_iff_true, if_true]
      rw [h3]
    · decide


/-- Witness for C8: the fail-fast build and the three-row drop warning on
concrete data. -/
theorem claim8_witness :
    (nanRowIdxs witnessTerms ≠ [] ∧
      buildModel false witnessTerms = Except.error "missing values in the data") ∧
    ((nanRowIdxs witnessTerms).length = 3 ∧
      buildModel true witnessTerms =
        Except.ok (witnessTerms.map (dropRowsFrom (nanRowIdxs witnessTerms)),
          [dropWarnMsg 3]) ∧
      hasSubstr "3 rows".data (dropWarnMsg 3).data = true) :=
  ⟨⟨by decide, claim8_nan_build.1 witnessTerms (by decide)⟩,
   ⟨by decide, claim8_nan_build.2 witnessTerms (by decide)⟩⟩

/-! ## Claim C9 -/

/-- `splitAll` never returns the empty list. -/
theorem splitAll_ne_nil (sep : Char) (l : List Char) : splitAll sep l ≠ [] := by
  cases l with
  | nil => simp [splitAll]
  | cons c rest =>
    unfold splitAll
    by_cases h : c = sep
    · simp [h]
    · rcases hs : splitAll sep rest with _ | ⟨hd, tl⟩ <;> simp [h, hs]

/-- `splitAll` produces one part more than the separator count. -/
theorem splitAll_length (sep : Char) (l : List Char) :
    (splitAll sep l).length = l.count sep + 1 := by
  induction l with
  | nil => simp [splitAll]
  | cons c rest ih =>
    unfold splitAll
    by_cases h : c = sep
    · subst h
      simp [List.count_cons, ih]
    · rcases hs : splitAll sep rest with _ | ⟨hd, tl⟩
      · exact absurd hs (splitAll_ne_nil sep rest)
      · rw [hs] at ih
        simp only [List.length_cons] at ih
        simp [h, hs, List.count_cons, Ne.symm h, ih]

/-- C9: a random-effect specification whose grouping-factor expression is
malformed is rejected with a validation error — in particular any
specification containing more than one `'|'`, and the concrete invalid
expression `1+BP|age_grp` of the test. -/
theorem claim9_malformed_random_rejected :
    (∀ (d : DataTable) (s : String), 2 ≤ s.data.count '|' →
      parseRandomTerm d s = Except.error "malformed random effect specification") ∧
    (∀ d : DataTable, parseRandomTerm d "1+BP|age_grp" =
      Except.error "malformed random effect specification") := by
  constructor
  · intro d s h2
    have hlen : 3 ≤ (splitAll '|' s.data).length := by
      rw [splitAll_length]
      omega
    unfold parseRandomTerm
    rcases hs : splitAll '|' s.data with _ | ⟨a, _ | ⟨b, _ | ⟨c, rest⟩⟩⟩
    · simp [hs] at hlen
    · simp [hs] at hlen
    · simp [hs] at hlen
    · rfl
  · intro d
    rfl

/-- Witness for C9 at the two-pipe specification `a|b|c`. -/
theorem claim9_witness :
    (2 ≤ "a|b|c".data.count '|' ∧
      parseRandomTerm witnessData "a|b|c" =
        Except.error "malformed random effect specification") ∧
    parseRandomTerm witnessData "1+BP|age_grp" =
      Except.error "malformed random effect specification" :=
  ⟨⟨by decide, claim9_malformed_random_rejected.1 witnessData "a|b|c" (by decide)⟩,
   claim9_malformed_random_rejected.2 witnessData⟩

/-! ## Claim C4 -/

/-- C4 counterexample: the canonicalization rule does NOT collapse
`u_<effect>|<group>_<group>` — at effect `a` and group `b`, the name
`u_a|b_b` is passed through unchanged instead of canonicalizing to
`u_a|b`, because the pattern's backreference repeats the EFFECT
(`u_<effect>|<group>_<effect>`), not the group. -/
theorem claim4_counterexample :
    formatName "u_a|b_b" = "u_a|b_b" ∧ formatName "u_a|b_b" ≠ "u_a|b" := by
  constructor
  · decide
  · decide

/-- C4 amended: (i) with `hide_transformed` enabled, any variable that is
not itself a transformed RV but contains a transformed RV's name as a
substring (e.g. `u_threecats|site_threecats[0]_sd_log`, which contains the
transformed `..._sd`) is excluded from the returned name list; (ii) the
canonicalization collapses every name of the form
`u_<effect>|<group>_<effect><tail>` — the effect repeated, not the group —
where the group part is free of underscores and the tail does not end in
`_sd`, to the canonical `u_<effect>|<group>`; (iii) with `exclude_ranefs`
enabled, every name whose canonical form minus the two-character prefix is
a known random-term name is removed. -/
theorem claim4_filter_amended :
    (∀ (m : ModelEmb) (er : Bool) (rvs : List BackendRV) (varnames : List String)
        (x : String),
      x ∉ transNames rvs →
      (∃ t ∈ transNames rvs, hasSubstr t.data x.data = true) →
      x ∉ filterNames m (untransformedVars rvs varnames) varnames er true) ∧
    (∀ (eff grp tail : List Char),
      '|' ∉ eff → eff ≠ [] → grp ≠ [] → grp.all isRe2ClassChar = true →
      endsWithSd tail = false →
      formatName (String.mk ('u' :: '_' :: (eff ++ '|' :: (grp ++ '_' :: (eff ++ tail))))) =
        String.mk ('u' :: '_' :: (eff ++ '|' :: grp))) ∧
    (∀ (m : ModelEmb) (untransformed varnames : List String) (ht : Bool) (x : String),
      ((formatName x).data.drop 2) ∈ m.randomTermNames →
      x ∉ filterNames m untransformed varnames true ht) := by
  refine ⟨?_, ?_, ?_⟩
  · intro m er rvs varnames x hxt hsub hmem
    obtain ⟨t, ht, hts⟩ := hsub
    have hmem' : x ∈ untransformedVars rvs varnames := by
      unfold filterNames at hmem
      by_cases her : er = true
      · rw [her] at hmem
        simp only [if_pos rfl] at hmem
        exact (List.mem_filter.mp hmem).1
      · rw [Bool.not_eq_true] at her
        rw [her] at hmem
        simpa using hmem
    unfold untransformedVars at hmem'
    simp only [List.mem_filter, Bool.or_eq_true, decide_eq_true_eq] at hmem'
    rcases hmem'.2 with h1 | h2
    · exact hxt h1
    · have h2' := h2.2
      rw [Bool.not_eq_true'] at h2'
      have := List.any_eq_false.mp h2' t ht
      exact this hts
  · intro eff grp tail he h0e h0g hcls hsd
    have hre := filterRe_resolve eff grp tail he h0e h0g hcls
    have htl : filterTail3 tail = none := by
      unfold filterTail3
      rw [hsd]
      rfl
    rw [htl] at hre
    unfold formatName
    rw [show (String.mk ('u' :: '_' :: (eff ++ '|' :: (grp ++ '_' :: (eff ++ tail))))).data =
          'u' :: '_' :: (eff ++ '|' :: (grp ++ '_' :: (eff ++ tail))) from rfl]
    rw [hre]
    rfl
  · intro m untransformed varnames ht x hmem hmem2
    unfold filterNames at hmem2
    simp only [if_pos rfl] at hmem2
    have := (List.mem_filter.mp hmem2).2
    rw [Bool.not_eq_true'] at this
    unfold List.contains at this
    rw [List.elem_eq_mem] at this
    simp only [decide_eq_false_iff_not] at this
    exact this hmem

/-- Witness for C4 amended: the `_sd_log` companion is hidden, the spec's
literal example canonicalizes to `u_threecats|site`, and a random-effect
name with matching canonical base is removed under `exclude_ranefs`. -/
theorem claim4_witness :
    (("u_x|g_x_sd_log" ∉ transNames witnessRVs) ∧
      ("u_x|g_x_sd" ∈ transNames witnessRVs ∧
        hasSubstr "u_x|g_x_sd".data "u_x|g_x_sd_log".data = true) ∧
      "u_x|g_x_sd_log" ∉
        filterNames witnessModel (untransformedVars witnessRVs witnessVarnames)
          witnessVarnames false true) ∧
    (formatName (String.mk ('u' :: '_' :: ("threecats".data ++ '|' ::
        ("site".data ++ '_' :: ("threecats".data ++ "[0]_sd_log".data))))) =
      String.mk ('u' :: '_' :: ("threecats".data ++ '|' :: "site".data))) ∧
    (("threecats|subj".data ∈ witnessModel.randomTermNames) ∧
      "u_threecats|subj_threecats[0]" ∉
        filterNames witnessModel [] ["u_threecats|subj_threecats[0]"] true false) := by
  refine ⟨⟨?_, ⟨?_, ?_⟩, ?_⟩, ?_, ⟨?_, ?_⟩⟩
  · decide
  · decide
  · decide
  · exact claim4_filter_amended.1 witnessModel false witnessRVs witnessVarnames
      "u_x|g_x_sd_log" (by decide) ⟨"u_x|g_x_sd", by decide, by decide⟩
  · exact claim4_filter_amended.2.1 "threecats".data "site".data "[0]_sd_log".data
      (by decide) (by decide) (by decide) (by decide) (by decide)
  · decide
  · have hfmt : ((formatName "u_threecats|subj_threecats[0]").data.drop 2) ∈
        witnessModel.randomTermNames := by decide
    exact claim4_filter_amended.2.2 witnessModel [] ["u_threecats|subj_threecats[0]"]
      false "u_threecats|subj_threecats[0]" hfmt

/-! ## Claim C2 -/

/-- C2: a parameter name that fails every rule of the decoding grammar —
equivalently, one rejected by the leading `re1` pattern, and in particular
any name not starting with `b_` or `u_` — is returned unchanged by
`_prettify_name`, with no exception, for every model state. -/
theorem claim2_decode_miss_passthrough :
    (∀ (m : ModelEmb) (name : String),
      prettifyRe1 name.data = none → prettifyName m name = some name) ∧
    (∀ (m : ModelEmb) (name : String),
      (∀ t, name.data ≠ 'b' :: '_' :: t) → (∀ t, name.data ≠ 'u' :: '_' :: t) →
      prettifyName m name = some name) := by
  have base : ∀ (m : ModelEmb) (name : String),
      prettifyRe1 name.data = none → prettifyName m name = some name := by
    intro m name h
    unfold prettifyName prettifyCore
    rw [h]
    rfl
  exact ⟨base, fun m name hb hu => base m name (prettifyRe1_eq_none name.data hb hu)⟩

/-- Witness for C2 at the nuisance parameter `Y_sd_interval`. -/
theorem claim2_witness :
    prettifyRe1 "Y_sd_interval".data = none ∧
      prettifyName witnessModel "Y_sd_interval" = some "Y_sd_interval" :=
  ⟨by decide,
   claim2_decode_miss_passthrough.1 witnessModel "Y_sd_interval" (by decide)⟩

/-! ## Claim C5 -/

/-- C5: any name on which `_prettify_name` acts as the identity is a fixed
point of the decoder — running the decoder again on its output returns the
same string. -/
theorem claim5_decode_idempotent (m : ModelEmb) (name : String)
    (h : prettifyName m name = some name) :
    (prettifyName m name).bind (prettifyName m) = some name := by
  rw [h]
  exact h

/-- Witness for C5 at the pass-through name `Y_sd`. -/
theorem claim5_witness :
    prettifyName witnessModel "Y_sd" = some "Y_sd" ∧
      (prettifyName witnessModel "Y_sd").bind (prettifyName witnessModel) =
        some "Y_sd" :=
  ⟨by decide, claim5_decode_idempotent witnessModel "Y_sd" (by decide)⟩

/-! ## Claim C3 -/

/-- C3 counterexample: the fixed-effect name `b_S1` carries no trailing
index, and its term `S1` is present in the model, yet `_prettify_name` does
not return `S1`: the `re1` pattern requires group 2 to end in a character
that is not an underscore, digit or `'+'`, so `b_S1` falls through
unmatched and is returned whole. -/
theorem claim3_counterexample :
    prettifyName witnessModel "b_S1" = some "b_S1" ∧
      prettifyName witnessModel "b_S1" ≠ some "S1" := by
  constructor
  · decide
  · decide

/-- C3 amended: for a fixed-effect name `b_<term>` whose term name has at
least two characters, ends in a character other than `'_'`, a digit or
`'+'`, contains no `'|'` and does not end in `_sd`, and is a key of
`model.terms`:  with no trailing index the decoder returns `<term>` itself,
and with a trailing `__<digits>` index it returns the entry of the term's
stored level labels at that index (here the term name is written
`t ++ [c]` with `c` its final character). -/
theorem claim3_fixed_decode_amended :
    (∀ (m : ModelEmb) (t : List Char) (c : Char) (term : TermInfo),
      isRe1ClassChar c = true → t ≠ [] → '|' ∉ t ++ [c] →
      endsWithSd (t ++ [c]) = false →
      m.lookup (t ++ [c]) = some term →
      prettifyCore m ('b' :: '_' :: (t ++ [c])) = some (t ++ [c])) ∧
    (∀ (m : ModelEmb) (t : List Char) (c : Char) (ds : List Char)
        (term : TermInfo) (lvl : List Char),
      isRe1ClassChar c = true → t ≠ [] → '|' ∉ t ++ [c] →
      ds ≠ [] → ds.all (·.isDigit) = true →
      m.lookup (t ++ [c]) = some term →
      term.levels.get? (digitsToNat ds) = some lvl →
      prettifyCore m ('b' :: '_' :: (t ++ (c :: '_' :: '_' :: ds))) = some lvl) := by
  constructor
  · intro m t c term hc h0 hpipe hsd hterm
    have hre1 := prettifyRe1_no_index t c 'b' (Or.inl rfl) hc h0
    unfold prettifyCore
    rw [hre1]
    simp only [re2Match_eq_none _ hpipe, re3Match_eq_none _ hsd]
    unfold termBranch
    rw [hterm]
    simp
  · intro m t c ds term lvl hc h0 hpipe hds hdig hterm hlvl
    have hre1 := prettifyRe1_with_index t c ds 'b' (Or.inl rfl) hc h0 hds hdig
    unfold prettifyCore
    rw [hre1]
    simp only [re2Match_eq_none _ hpipe]
    unfold termBranch
    rw [hterm]
    simp only [if_pos rfl]
    unfold TermInfo.level group3Index
    simpa using hlvl

/-- Witness for C3 amended at `b_BMI` and at the indexed `b_threecats__1`
with level labels `threecats[a] threecats[b] threecats[c]`. -/
theorem claim3_witness :
    (isRe1ClassChar 'I' = true ∧
      witnessModel.lookup (['B', 'M'] ++ ['I']) =
        some ⟨"BMI".data, ["BMI".data]⟩ ∧
      prettifyCore witnessModel ('b' :: '_' :: (['B', 'M'] ++ ['I'])) =
        some (['B', 'M'] ++ ['I'])) ∧
    (witnessModel.lookup (['t', 'h', 'r', 'e', 'e', 'c', 'a', 't'] ++ ['s']) =
        some ⟨"threecats".data,
          ["threecats[a]".data, "threecats[b]".data, "threecats[c]".data]⟩ ∧
      prettifyCore witnessModel
          ('b' :: '_' :: (['t', 'h', 'r', 'e', 'e', 'c', 'a', 't'] ++
            ('s' :: '_' :: '_' :: ['1']))) =
        some "threecats[b]".data) :=
  ⟨⟨by decide, by decide,
    claim3_fixed_decode_amended.1 witnessModel ['B', 'M'] 'I'
      ⟨"BMI".data, ["BMI".data]⟩ (by decide) (by decide) (by decide) (by decide)
      (by decide)⟩,
   ⟨by decide,
    claim3_fixed_decode_amended.2 witnessModel
      ['t', 'h', 'r', 'e', 'e', 'c', 'a', 't'] 's' ['1']
      ⟨"threecats".data,
        ["threecats[a]".data, "threecats[b]".data, "threecats[c]".data]⟩
      "threecats[b]".data (by decide) (by decide) (by decide) (by decide)
      (by decide) (by decide) (by decide)⟩⟩

end Bambi
